import Mathlib

/-!
Shallow embedding of the docker-clone registry/download core
(src/app/docker_image.py, src/app/image_layer.py, src/app/utils.py).

Machine integers of the source are Python arbitrary-precision ints, modelled
as `Nat` (all the counters in the source are non-negative: sizes, byte
counters, HTTP status codes).  Fallible operations (Python exceptions:
IndexError, ValueError, DockerImageError) are modelled with `Except String`.
Strings are modelled as `String` or as `List Char` where the claims need
character-level reasoning (Python `in`, `split`, slicing).
-/

namespace DockerClone

/-- Substring machinery for Python's `sub in s` test: `leadsWith sub s` is
true when `s` starts with `sub`. -/
def leadsWith : List Char → List Char → Bool
  | [], _ => true
  | _ :: _, [] => false
  | a :: as, b :: bs => a == b && leadsWith as bs

/-- Python's `sub in s` substring test on char lists: `hasSub sub s` is true
when `sub` occurs contiguously inside `s`. -/
def hasSub (sub : List Char) : List Char → Bool
  | [] => leadsWith sub []
  | c :: cs => leadsWith sub (c :: cs) || hasSub sub cs

/-- A layer descriptor (src/app/image_layer.py, class ImageLayer): media
type, size in bytes and content digest; the image name only feeds the blob
URL and is irrelevant to the claims. -/
structure ImageLayer where
  mediaType : String
  size : Nat
  digest : String
deriving DecidableEq

/-- ImageLayer.extension (src/app/image_layer.py lines 41-48): Python
`'gzip' in self.mediaType[-4:].lower()` decides between '.tar.gz' and
'.tar'.  `mediaType[-4:]` is the last four characters (the whole string when
shorter), lowered characterwise. -/
def extension (mediaType : String) : String :=
  if hasSub "gzip".data ((mediaType.data.drop (mediaType.data.length - 4)).map Char.toLower)
  then ".tar.gz" else ".tar"

/-- DockerImageDownloadProfile.size (src/app/docker_image.py line 222):
`reduce(lambda sum, layer: sum + layer.size, self.layers, 0)`. -/
def profile_size (layers : List ImageLayer) : Nat :=
  layers.foldl (fun sum layer => sum + layer.size) 0

/-- DockerImageDownloadProfile.file_extension (line 241):
`self.layers[0].extension` — Python raises IndexError on an empty layer
list. -/
def file_extension (layers : List ImageLayer) : Except String String :=
  match layers with
  | [] => Except.error "IndexError: list index out of range"
  | layer :: _ => Except.ok (extension layer.mediaType)

/-- DockerImageDownloadProfile.file_name (line 245):
`f'{self.name}{self.file_extension}'`, propagating the IndexError of
file_extension. -/
def file_name (name : String) (layers : List ImageLayer) : Except String String :=
  (file_extension layers).map (fun ext => name ++ ext)

/-- Loop body of DockerImageDownloader._get_next_layer (lines 361-370),
generalised over the running sum accumulator `sum`. -/
def get_next_layer_aux (downloaded : Nat) : List ImageLayer → Nat → Option (ImageLayer × Nat)
  | [], _ => none
  | layer :: rest, sum =>
    if sum + layer.size > downloaded then
      some (layer, layer.size - (sum + layer.size - downloaded))
    else get_next_layer_aux downloaded rest (sum + layer.size)

/-- DockerImageDownloader._get_next_layer (lines 361-370): walk the catalog
accumulating a running size sum; at the first layer whose cumulative sum
exceeds `downloaded`, return the layer and its already-downloaded byte count
`layer.size - (sum - downloaded)`; otherwise None. -/
def get_next_layer (layers : List ImageLayer) (downloaded : Nat) : Option (ImageLayer × Nat) :=
  get_next_layer_aux downloaded layers 0

/-- Sum of the sizes of the first `k` layers: the running cumulative sum the
source's loops recompute. -/
def cumSize : List ImageLayer → Nat → Nat
  | _, 0 => 0
  | [], _ + 1 => 0
  | layer :: rest, k + 1 => layer.size + cumSize rest k

/-- One blob request of _download_next_layer (lines 385-387): a GET on the
layer's blob URL with header `Range: bytes=<rangeStart>-`. -/
structure NetCall where
  digest : String
  rangeStart : Nat
deriving DecidableEq

/-- The lifecycle signals the downloader emits (lines 261-263). -/
inductive Event
  | started
  | updated
  | completed
deriving DecidableEq

/-- The mode the output file is opened with (line 355): `'ab' if is_resuming
else 'wb'`. -/
inductive FileMode
  | wb
  | ab
deriving DecidableEq

/-- The mutable per-session fields of DockerImageDownloader the claims speak
about (lines 257-259); the throughput sample is wall-clock derived and
outside the embedding. -/
structure DownloaderState where
  downloaded : Nat
  is_downloading : Bool
deriving DecidableEq

/-- DockerImageDownloader._download_next_layer (lines 372-399) under a
registry that answers the Range request with exactly the requested remainder
of the layer: the downloaded counter grows by `layer.size -
layer_downloaded` (the sum of the streamed chunk lengths) and one blob
request is issued.  When _get_next_layer returns None the method returns
without a request. -/
def download_next_layer (layers : List ImageLayer) (downloaded : Nat) : Nat × List NetCall :=
  match get_next_layer layers downloaded with
  | none => (downloaded, [])
  | some (layer, layer_downloaded) =>
    (downloaded + (layer.size - layer_downloaded), [⟨layer.digest, layer_downloaded⟩])

/-- The transfer loop of start (lines 356-357): `while downloaded <
total_size: _download_next_layer(file)`.  `fuel` bounds the iterations so the
recursion is structural; each iteration raises `downloaded` to the next
cumulative layer sum, so `layers.length` iterations always suffice (the
callers below pass exactly that).  Returns the final counter, the counter's
value after each iteration, and the blob requests issued. -/
def download_loop (layers : List ImageLayer) : Nat → Nat → Nat × List Nat × List NetCall
  | 0, downloaded => (downloaded, [], [])
  | fuel + 1, downloaded =>
    if downloaded < profile_size layers then
      let step := download_next_layer layers downloaded
      let rest := download_loop layers fuel step.1
      (rest.1, step.1 :: rest.2.1, step.2 ++ rest.2.2)
    else (downloaded, [], [])

/-- Everything observable about one start() call: final session state, final
output-file size on disk (`none` = no file), the open mode used, the file's
size at open time, the emitted events, the blob requests, the downloaded
counter's trajectory (its value when the transfer loop is entered and after
each iteration), and the propagated Python exception if any. -/
structure StartResult where
  state : DownloaderState
  file : Option Nat
  mode : Option FileMode
  fileSizeAtOpen : Option Nat
  events : List Event
  netCalls : List NetCall
  trace : List Nat
  error : Option String
deriving DecidableEq

/-- DockerImageDownloader.start (lines 336-359).  `file` is the output
file's on-disk size, `none` when it does not exist (os.path.exists /
os.path.getsize / os.remove).  Faithful ordering: the is-downloading guard
returns first; the counter is reset to 0; evaluating `self.is_exists` forces
the profile file name, whose file_extension raises IndexError on an empty
catalog before any deletion, event or request (with resume=False the first
`is_exists` of line 345 raises, otherwise the one of line 349); then the
resume branches, the open, the started signal, the transfer loop, and the
completed signal. -/
def start (layers : List ImageLayer) (st : DownloaderState) (file : Option Nat)
    (resume : Bool) : StartResult :=
  if st.is_downloading then
    ⟨st, file, none, none, [], [], [], none⟩
  else
    match file_extension layers with
    | Except.error e =>
      ⟨{ st with downloaded := 0 }, file, none, none, [], [], [], some e⟩
    | Except.ok _ =>
      let file1 : Option Nat := if !resume && file.isSome then none else file
      let downloaded1 : Nat := match file1 with
        | some n => n
        | none => 0
      let is_resuming := downloaded1 > 0
      let mode := if is_resuming then FileMode.ab else FileMode.wb
      let openSize : Nat := if is_resuming then downloaded1 else 0
      let loopResult := download_loop layers layers.length downloaded1
      ⟨⟨loopResult.1, false⟩,
       some (openSize + (loopResult.1 - downloaded1)),
       some mode,
       some openSize,
       Event.started :: (loopResult.2.2.map (fun _ => Event.updated) ++ [Event.completed]),
       loopResult.2.2,
       downloaded1 :: loopResult.2.1,
       none⟩

/-- DockerImageDownloader.progress (lines 285-288): `self.__downloaded /
self.__size` — Python true division, raising ZeroDivisionError (modelled as
`none`) when the total size is 0. -/
def progress (downloaded size : Nat) : Option ℚ :=
  if size = 0 then none else some ((downloaded : ℚ) / (size : ℚ))

/-- A platform record of the manifest list (docker_image.py lines 71-85). -/
structure Platform where
  architecture : String
  os : String
deriving DecidableEq

/-- One entry of the manifest list's `manifests` array. -/
structure ManifestEntry where
  digest : String
  mediaType : String
  platform : Platform
deriving DecidableEq

/-- DockerImage.get_image_by_arch (lines 91-95): first entry whose
platform architecture equals `arch`, else
`DockerImageError("No image for arch: {arch}")` — a pure scan of the cached
manifest list, no network. -/
def get_image_by_arch : List ManifestEntry → String → Except String ManifestEntry
  | [], arch => Except.error ("No image for arch: " ++ arch)
  | mini :: rest, arch =>
    if mini.platform.architecture = arch then Except.ok mini
    else get_image_by_arch rest arch

/-- DockerImage.get_arch_image_digest (lines 97-98). -/
def get_arch_image_digest (manifests : List ManifestEntry) (arch : String) :
    Except String String :=
  (get_image_by_arch manifests arch).map ManifestEntry.digest

/-- The parts of an HTTP response the manifest fetch inspects: status code,
body text, and the Www-Authenticate header (consulted only on 401). -/
structure HttpResponse where
  status_code : Nat
  text : String
  wwwAuthenticate : String
deriving DecidableEq

/-- requests' `Response.ok`: true exactly when `status_code < 400`. -/
def response_ok (r : HttpResponse) : Bool :=
  r.status_code < 400

/-- DockerImage.request_image_manifests (lines 174-196): on `ok` return the
body; on 401 raise with the Www-Authenticate challenge; otherwise raise with
the status code and body. -/
def request_image_manifests (r : HttpResponse) : Except String String :=
  if response_ok r then Except.ok r.text
  else if r.status_code = 401 then
    Except.error ("Failed to get manifests: Required Token: " ++ r.wwwAuthenticate)
  else
    Except.error ("Failed to get manifests: " ++ toString r.status_code ++ ": " ++ r.text)

/-- load_and_cache (src/app/utils.py lines 29-35) as one access step over an
explicit cache cell: if the attribute exists return it untouched, else call
the generator, stash and return its value.  The generator is indexed by an
invocation counter so that "the fetch runs at most once" is observable:
distinct invocations could return distinct values. -/
def load_and_cache {α : Type} (cache : Option α) (calls : Nat) (generator : Nat → α) :
    α × Option α × Nat :=
  match cache with
  | some v => (v, some v, calls)
  | none => (generator calls, some (generator calls), calls + 1)

/-- `k` consecutive property accesses through load_and_cache starting from an
object with no cached attribute: final cache cell, number of generator
invocations, and the values the accesses returned, in order. -/
def iterate_access {α : Type} (generator : Nat → α) : Nat → Option α × Nat × List α
  | 0 => (none, 0, [])
  | k + 1 =>
    let prev := iterate_access generator k
    let step := load_and_cache prev.1 prev.2.1 generator
    (step.2.1, step.2.2, prev.2.2 ++ [step.1])

/-- Python str.split(sep) for a one-character separator on char lists:
`''.split('/') = ['']`, `'a/b/c'.split('/') = ['a','b','c']`. -/
def splitOnChar (sep : Char) : List Char → List (List Char)
  | [] => [[]]
  | c :: cs =>
    let rest := splitOnChar sep cs
    if c = sep then [] :: rest
    else match rest with
      | r :: rs => (c :: r) :: rs
      | [] => [[c]]

/-- DockerImage.parse_image_name (lines 131-153).  Python unpacks
`repo, image_name = image_name.split('/')` — a ValueError when the split
does not yield exactly two parts — then likewise `name, tag =
image_name.split(':')` on the remainder; repo defaults to 'library' and tag
to 'latest'. -/
def parse_image_name (image_name : List Char) : Except String (List Char × List Char × List Char) :=
  let step1 : Except String (List Char × List Char) :=
    if '/' ∈ image_name then
      match splitOnChar '/' image_name with
      | [repo, rest] => Except.ok (repo, rest)
      | _ => Except.error "ValueError: too many values to unpack (expected 2)"
    else Except.ok ("library".data, image_name)
  match step1 with
  | Except.error e => Except.error e
  | Except.ok (repo, rest) =>
    if ':' ∈ rest then
      match splitOnChar ':' rest with
      | [name, tag] => Except.ok (repo, name, tag)
      | _ => Except.error "ValueError: too many values to unpack (expected 2)"
    else Except.ok (repo, rest, "latest".data)

/-! ### Cumulative-size lemmas -/

theorem cumSize_nil (k : Nat) : cumSize [] k = 0 := by
  cases k <;> rfl

theorem cumSize_mono (layers : List ImageLayer) :
    ∀ k k', k ≤ k' → cumSize layers k ≤ cumSize layers k' := by
  induction layers with
  | nil => intro k k' _; simp [cumSize_nil]
  | cons l ls ih =>
    intro k k' h
    cases k with
    | zero => exact Nat.zero_le _
    | succ k =>
      cases k' with
      | zero => omega
      | succ k' =>
        simp only [cumSize]
        exact Nat.add_le_add_left (ih k k' (by omega)) _

theorem cumSize_le_total (layers : List ImageLayer) :
    ∀ k, cumSize layers k ≤ cumSize layers layers.length := by
  induction layers with
  | nil => intro k; simp [cumSize_nil]
  | cons l ls ih =>
    intro k
    cases k with
    | zero => exact Nat.zero_le _
    | succ k =>
      simp only [cumSize, List.length_cons]
      exact Nat.add_le_add_left (ih k) _

theorem cumSize_succ_get (layers : List ImageLayer) :
    ∀ i (hi : i < layers.length),
      cumSize layers (i + 1) = cumSize layers i + (layers.get ⟨i, hi⟩).size := by
  induction layers with
  | nil => intro i hi; simp at hi
  | cons l ls ih =>
    intro i hi
    cases i with
    | zero => simp [cumSize, List.get]
    | succ i =>
      have hi' : i < ls.length := by simpa using hi
      show l.size + cumSize ls (i + 1) = l.size + cumSize ls i + (ls.get ⟨i, hi'⟩).size
      rw [ih i hi']
      omega

theorem profile_size_foldl (layers : List ImageLayer) :
    ∀ n, List.foldl (fun sum layer => sum + layer.size) n layers
      = n + cumSize layers layers.length := by
  induction layers with
  | nil => intro n; simp [cumSize_nil]
  | cons l ls ih =>
    intro n
    simp only [List.foldl, List.length_cons, cumSize]
    rw [ih (n + l.size)]
    omega

theorem profile_size_eq (layers : List ImageLayer) :
    profile_size layers = cumSize layers layers.length := by
  simpa using profile_size_foldl layers 0

/-! ### Characterisation of the resume mapping -/

theorem get_next_layer_aux_none (layers : List ImageLayer) :
    ∀ (s d : Nat), s ≤ d →
      (get_next_layer_aux d layers s = none ↔ s + cumSize layers layers.length ≤ d) := by
  induction layers with
  | nil =>
    intro s d h
    simp [get_next_layer_aux, cumSize_nil]
    omega
  | cons l ls ih =>
    intro s d h
    by_cases hgt : s + l.size > d
    · simp only [get_next_layer_aux, if_pos hgt, List.length_cons, cumSize]
      constructor
      · intro hc; exact absurd hc (by simp)
      · intro hc; omega
    · simp only [get_next_layer_aux, if_neg hgt, List.length_cons, cumSize]
      rw [ih (s + l.size) d (by omega)]
      omega

theorem get_next_layer_aux_some (layers : List ImageLayer) :
    ∀ (s d : Nat) (l : ImageLayer) (off : Nat), s ≤ d →
      get_next_layer_aux d layers s = some (l, off) →
      ∃ i, ∃ hi : i < layers.length, layers.get ⟨i, hi⟩ = l
        ∧ s + cumSize layers i ≤ d ∧ d < s + cumSize layers (i + 1)
        ∧ off = l.size - (s + cumSize layers (i + 1) - d) := by
  induction layers with
  | nil => intro s d l off _ heq; simp [get_next_layer_aux] at heq
  | cons l0 ls ih =>
    intro s d l off h heq
    by_cases hgt : s + l0.size > d
    · rw [get_next_layer_aux, if_pos hgt] at heq
      obtain ⟨hl, hoff⟩ : l0 = l ∧ l0.size - (s + l0.size - d) = off := by
        injection heq with h1; injection h1 with h2 h3; exact ⟨h2, h3⟩
      subst hl
      refine ⟨0, by simp, rfl, ?_, ?_, ?_⟩
      · simpa [cumSize] using h
      · simpa [cumSize, cumSize_nil] using hgt
      · simp [cumSize, cumSize_nil]; omega
    · rw [get_next_layer_aux, if_neg hgt] at heq
      obtain ⟨i, hi, hget, h1, h2, h3⟩ := ih (s + l0.size) d l off (by omega) heq
      refine ⟨i + 1, by simpa using Nat.succ_lt_succ hi, hget, ?_, ?_, ?_⟩
      · show s + cumSize (l0 :: ls) (i + 1) ≤ d
        simp only [cumSize]; omega
      · show d < s + cumSize (l0 :: ls) (i + 2)
        simp only [cumSize]; omega
      · show off = l.size - (s + cumSize (l0 :: ls) (i + 2) - d)
        simp only [cumSize]; omega

theorem get_next_layer_none_iff (layers : List ImageLayer) (d : Nat) :
    get_next_layer layers d = none ↔ profile_size layers ≤ d := by
  rw [profile_size_eq]
  simpa [get_next_layer] using get_next_layer_aux_none layers 0 d (Nat.zero_le d)

theorem get_next_layer_some_spec (layers : List ImageLayer) (d : Nat) (l : ImageLayer)
    (off : Nat) (h : get_next_layer layers d = some (l, off)) :
    ∃ i, ∃ hi : i < layers.length, layers.get ⟨i, hi⟩ = l
      ∧ cumSize layers i ≤ d ∧ d < cumSize layers (i + 1)
      ∧ off = l.size - (cumSize layers (i + 1) - d) := by
  simpa using get_next_layer_aux_some layers 0 d l off (Nat.zero_le d) h

/-- C1: the resume mapping is a pure function of the downloaded-byte counter
and the catalog: `_get_next_layer` selects exactly the first layer whose
cumulative size sum strictly exceeds `downloaded`, with intra-layer offset
`layer.size - (cumulative_sum - downloaded)`; for sizes [100, 200, 50] and
downloaded = 250 it selects the layer at index 1 with offset 150, and for
`downloaded ≥ total` it selects no layer. -/
theorem claim_c1_get_next_layer (layers : List ImageLayer) (d : Nat) :
    (get_next_layer layers d = none ↔ profile_size layers ≤ d)
    ∧ (∀ l off, get_next_layer layers d = some (l, off) →
        ∃ i, ∃ hi : i < layers.length, layers.get ⟨i, hi⟩ = l
          ∧ cumSize layers i ≤ d
          ∧ d < cumSize layers (i + 1)
          ∧ (∀ j, j < i → cumSize layers (j + 1) ≤ d)
          ∧ off = l.size - (cumSize layers (i + 1) - d))
    ∧ get_next_layer [⟨"m", 100, "d0"⟩, ⟨"m", 200, "d1"⟩, ⟨"m", 50, "d2"⟩] 250
        = some (⟨"m", 200, "d1"⟩, 150) := by
  refine ⟨get_next_layer_none_iff layers d, ?_, rfl⟩
  intro l off h
  obtain ⟨i, hi, hget, h1, h2, h3⟩ := get_next_layer_some_spec layers d l off h
  exact ⟨i, hi, hget, h1, h2,
    fun j hj => le_trans (cumSize_mono layers (j + 1) i (by omega)) h1, h3⟩

/-! ### Transfer-loop bounds -/

theorem download_next_layer_step (layers : List ImageLayer) (d : Nat)
    (h : d < profile_size layers) :
    d ≤ (download_next_layer layers d).1
    ∧ (download_next_layer layers d).1 ≤ profile_size layers := by
  cases heq : get_next_layer layers d with
  | none =>
    rw [get_next_layer_none_iff] at heq
    omega
  | some p =>
    obtain ⟨l, off⟩ := p
    obtain ⟨i, hi, hget, h1, h2, h3⟩ := get_next_layer_some_spec layers d l off heq
    have hsz : cumSize layers (i + 1) = cumSize layers i + l.size := by
      rw [cumSize_succ_get layers i hi, hget]
    have htot : cumSize layers (i + 1) ≤ profile_size layers := by
      rw [profile_size_eq]
      exact cumSize_le_total layers (i + 1)
    simp only [download_next_layer, heq]
    omega

theorem download_loop_bounds (layers : List ImageLayer) :
    ∀ (fuel d : Nat), d ≤ profile_size layers →
      List.Chain' (· ≤ ·) (d :: (download_loop layers fuel d).2.1)
      ∧ ∀ x ∈ (download_loop layers fuel d).2.1, x ≤ profile_size layers := by
  intro fuel
  induction fuel with
  | zero => intro d _; simp [download_loop]
  | succ fuel ih =>
    intro d h
    by_cases hd : d < profile_size layers
    · have hstep := download_next_layer_step layers d hd
      have ihh := ih (download_next_layer layers d).1 hstep.2
      simp only [download_loop, if_pos hd]
      refine ⟨List.chain'_cons.2 ⟨hstep.1, ihh.1⟩, ?_⟩
      intro x hx
      rcases List.mem_cons.1 hx with hx | hx
      · subst hx; exact hstep.2
      · exact ihh.2 x hx
    · simp [download_loop, hd]

/-- C2 counterexample: the claim asserts `progress = downloaded/total` is
well-defined including for a catalog with zero layers (total = 0), but the
source computes `self.__downloaded / self.__size`, which raises
ZeroDivisionError when the total size is 0. -/
theorem claim_c2_counterexample : progress 0 0 = none := rfl

/-- C2 as amended: when the pre-existing output file is no larger than the
catalog total, every value the downloaded-byte counter takes during one
start() run stays within [0, total] and the sequence of values is
non-decreasing, so wherever `progress` is defined (total > 0) it lies in
[0, 1]. -/
theorem claim_c2_progress_bounds (layers : List ImageLayer) (st : DownloaderState)
    (file : Option Nat) (resume : Bool)
    (hfile : ∀ n, file = some n → n ≤ profile_size layers) :
    List.Chain' (· ≤ ·) (start layers st file resume).trace
    ∧ (∀ x ∈ (start layers st file resume).trace, x ≤ profile_size layers)
    ∧ (∀ x ∈ (start layers st file resume).trace, ∀ q,
        progress x (profile_size layers) = some q → 0 ≤ q ∧ q ≤ 1) := by
  have hq : ∀ x, x ≤ profile_size layers → ∀ q,
      progress x (profile_size layers) = some q → 0 ≤ q ∧ q ≤ 1 := by
    intro x hx q hprog
    by_cases hz : profile_size layers = 0
    · simp [progress, hz] at hprog
    · simp only [progress, if_neg hz] at hprog
      obtain rfl : ((x : ℚ) / (profile_size layers : ℚ)) = q := by
        injection hprog
      have hpos : (0 : ℚ) < (profile_size layers : ℚ) := by
        exact_mod_cast Nat.pos_of_ne_zero hz
      constructor
      · exact div_nonneg (by positivity) (le_of_lt hpos)
      · rw [div_le_one hpos]
        exact_mod_cast hx
  by_cases hdl : st.is_downloading
  · simp [start, hdl]
  · cases hext : file_extension layers with
    | error e => simp [start, hdl, hext]
    | ok ext =>
      have hd1 : (match (if !resume && file.isSome then none else file : Option Nat) with
          | some n => n
          | none => 0) ≤ profile_size layers := by
        cases file with
        | none => cases resume <;> simp
        | some n =>
          cases resume with
          | false => simp
          | true => simpa using hfile n rfl
      have hloop := download_loop_bounds layers layers.length _ hd1
      simp only [start, if_neg hdl, hext]
      refine ⟨hloop.1, ?_, ?_⟩
      · intro x hx
        rcases List.mem_cons.1 hx with hx | hx
        · subst hx; exact hd1
        · exact hloop.2 x hx
      · intro x hx
        apply hq
        rcases List.mem_cons.1 hx with hx | hx
        · subst hx; exact hd1
        · exact hloop.2 x hx

/-- Witness for the amended C2 at a concrete resumed session: catalog
[100, 200, 50], an existing 250-byte output file, resume = true. -/
theorem claim_c2_witness :
    List.Chain' (· ≤ ·)
      (start [⟨"m", 100, "d0"⟩, ⟨"m", 200, "d1"⟩, ⟨"m", 50, "d2"⟩]
        ⟨0, false⟩ (some 250) true).trace :=
  (claim_c2_progress_bounds [⟨"m", 100, "d0"⟩, ⟨"m", 200, "d1"⟩, ⟨"m", 50, "d2"⟩]
    ⟨0, false⟩ (some 250) true
    (fun n h => by injection h with h2; subst h2; decide)).1

/-- C3 counterexample: on a zero-layer catalog start() does not complete
immediately — it raises IndexError while deriving the output file name
(`self.layers[0]` on an empty list, forced by the `is_exists` check) and
emits neither `started` nor `completed`. -/
theorem claim_c3_counterexample :
    start [] ⟨0, false⟩ (some 5) true =
      ⟨⟨0, false⟩, some 5, none, none, [], [], [],
        some "IndexError: list index out of range"⟩ := rfl

/-- C3 as amended: for a zero-layer catalog start() indeed performs no blob
request, but instead of completing it raises IndexError from
`file_extension` (layers[0] of an empty list) before the output file is
touched or any event is emitted. -/
theorem claim_c3_zero_layers (st : DownloaderState) (file : Option Nat) (resume : Bool)
    (h : st.is_downloading = false) :
    start [] st file resume =
      ⟨⟨0, false⟩, file, none, none, [], [], [],
        some "IndexError: list index out of range"⟩ := by
  cases st
  subst h
  rfl

/-- Witness for the amended C3 at a concrete idle session with no output
file and resume = false. -/
theorem claim_c3_witness :
    start [] ⟨7, false⟩ none false =
      ⟨⟨0, false⟩, none, none, none, [], [], [],
        some "IndexError: list index out of range"⟩ :=
  claim_c3_zero_layers ⟨7, false⟩ none false rfl

/-- C4: start(resume=False) on an idle session discards any pre-existing
output file: the transfer phase begins with the downloaded counter at 0,
the file is opened in truncate-write mode ('wb') at size 0, and the whole
run is identical to one that started with no output file at all. -/
theorem claim_c4_fresh_start (layer : ImageLayer) (rest : List ImageLayer)
    (st : DownloaderState) (file : Option Nat) (h : st.is_downloading = false) :
    (start (layer :: rest) st file false).mode = some FileMode.wb
    ∧ (start (layer :: rest) st file false).fileSizeAtOpen = some 0
    ∧ (start (layer :: rest) st file false).trace.head? = some 0
    ∧ start (layer :: rest) st file false = start (layer :: rest) st none false := by
  cases file <;> simp [start, h, file_extension]

/-- Witness for C4 at a concrete session with an existing 40-byte file. -/
theorem claim_c4_witness :
    (start [⟨"m", 100, "d0"⟩] ⟨3, false⟩ (some 40) false).mode = some FileMode.wb :=
  (claim_c4_fresh_start ⟨"m", 100, "d0"⟩ [] ⟨3, false⟩ (some 40) rfl).1

/-- C5: start() on a session whose is-downloading flag is set returns
immediately: the session state and output file are unchanged and no event,
request, open or error occurs. -/
theorem claim_c5_noop (layers : List ImageLayer) (st : DownloaderState)
    (file : Option Nat) (resume : Bool) (h : st.is_downloading = true) :
    start layers st file resume = ⟨st, file, none, none, [], [], [], none⟩ := by
  simp [start, h]

/-- Witness for C5 at a concrete already-downloading session. -/
theorem claim_c5_witness :
    start [⟨"m", 100, "d0"⟩] ⟨42, true⟩ (some 7) true =
      ⟨⟨42, true⟩, some 7, none, none, [], [], [], none⟩ :=
  claim_c5_noop [⟨"m", 100, "d0"⟩] ⟨42, true⟩ (some 7) true rfl

/-! ### Substring lemmas for the extension rule and the 401 message -/

theorem leadsWith_iff (sub : List Char) :
    ∀ t, leadsWith sub t = true ↔ ∃ u, t = sub ++ u := by
  induction sub with
  | nil =>
    intro t
    simp only [leadsWith, List.nil_append]
    exact ⟨fun _ => ⟨t, rfl⟩, fun _ => trivial⟩
  | cons a as ih =>
    intro t
    cases t with
    | nil =>
      simp [leadsWith]
    | cons b bs =>
      simp only [leadsWith, Bool.and_eq_true, beq_iff_eq, ih bs]
      constructor
      · rintro ⟨rfl, u, rfl⟩
        exact ⟨u, rfl⟩
      · rintro ⟨u, hu⟩
        injection hu with h1 h2
        exact ⟨h1.symm, u, h2⟩

theorem hasSub_iff (sub : List Char) :
    ∀ t, hasSub sub t = true ↔ ∃ p u, t = p ++ sub ++ u := by
  intro t
  induction t with
  | nil =>
    simp only [hasSub, leadsWith_iff]
    constructor
    · rintro ⟨u, hu⟩
      exact ⟨[], u, by simpa using hu⟩
    · rintro ⟨p, u, hu⟩
      have h1 := List.append_eq_nil.1 hu.symm
      have h2 := List.append_eq_nil.1 h1.1
      exact ⟨[], by simp [h2.2]⟩
  | cons c cs ih =>
    simp only [hasSub, Bool.or_eq_true, leadsWith_iff, ih]
    constructor
    · rintro (⟨u, hu⟩ | ⟨p, u, hu⟩)
      · exact ⟨[], u, by simpa using hu⟩
      · exact ⟨c :: p, u, by simp [hu]⟩
    · rintro ⟨p, u, hu⟩
      cases p with
      | nil => exact Or.inl ⟨u, by simpa using hu⟩
      | cons x xs =>
        injection hu with h1 h2
        exact Or.inr ⟨xs, u, h2⟩

theorem hasSub_gzip_short (t : List Char) (hlen : t.length ≤ 4) :
    hasSub "gzip".data t = true ↔ t = "gzip".data := by
  rw [hasSub_iff]
  constructor
  · rintro ⟨p, u, rfl⟩
    rw [List.length_append, List.length_append] at hlen
    have hg : ("gzip".data).length = 4 := rfl
    rw [hg] at hlen
    have hp : p = [] := List.length_eq_zero.1 (by omega)
    have hu : u = [] := List.length_eq_zero.1 (by omega)
    simp [hp, hu]
  · rintro rfl
    exact ⟨[], [], by simp⟩

/-- C6 counterexample: the mediaType "gzipx" contains the substring "gzip"
(already lowercase), yet the derived extension is ".tar", not ".tar.gz":
the source only inspects `mediaType[-4:]`, the final four characters. -/
theorem claim_c6_counterexample :
    hasSub "gzip".data ("gzipx".data.map Char.toLower) = true
    ∧ extension "gzipx" = ".tar"
    ∧ (".tar" : String) ≠ ".tar.gz" := by
  refine ⟨rfl, rfl, ?_⟩
  decide

/-- C6 as amended: the derived extension is ".tar.gz" exactly when the final
four characters of the mediaType, lowercased, are "gzip" (Python
`'gzip' in mediaType[-4:].lower()`), and ".tar" otherwise; the profile takes
the extension from the first layer only and appends it to the whole archive
file name. -/
theorem claim_c6_extension_rule :
    (∀ mediaType : String, extension mediaType = ".tar.gz" ↔
      (mediaType.data.drop (mediaType.data.length - 4)).map Char.toLower = "gzip".data)
    ∧ (∀ mediaType : String, extension mediaType = ".tar.gz" ∨ extension mediaType = ".tar")
    ∧ (∀ layer rest, file_extension (layer :: rest) = Except.ok (extension layer.mediaType))
    ∧ (∀ name layer rest,
        file_name name (layer :: rest) = Except.ok (name ++ extension layer.mediaType)) := by
  have hlen : ∀ mediaType : String,
      ((mediaType.data.drop (mediaType.data.length - 4)).map Char.toLower).length ≤ 4 := by
    intro m
    simp only [List.length_map, List.length_drop]
    omega
  have hchar : ∀ mediaType : String, extension mediaType = ".tar.gz" ↔
      (mediaType.data.drop (mediaType.data.length - 4)).map Char.toLower = "gzip".data := by
    intro m
    by_cases hs : hasSub "gzip".data ((m.data.drop (m.data.length - 4)).map Char.toLower) = true
    · rw [extension, if_pos hs]
      exact iff_of_true rfl ((hasSub_gzip_short _ (hlen m)).1 hs)
    · rw [extension, if_neg hs]
      refine iff_of_false (by decide) ?_
      intro hc
      exact hs ((hasSub_gzip_short _ (hlen m)).2 hc)
  refine ⟨hchar, ?_, fun _ _ => rfl, fun _ _ _ => rfl⟩
  intro m
  by_cases hs : hasSub "gzip".data ((m.data.drop (m.data.length - 4)).map Char.toLower) = true
  · exact Or.inl (by rw [extension, if_pos hs])
  · exact Or.inr (by rw [extension, if_neg hs])

/-- C7 counterexample: for platforms {amd64, arm64} and requested arch
"mips" the raised error message is "No image for arch: mips" (capital "No",
and the exception class is the module's DockerImageError), not the claimed
verbatim message "no image for arch: mips". -/
theorem claim_c7_counterexample :
    get_image_by_arch
      [⟨"sha256:aaa", "mt", ⟨"amd64", "linux"⟩⟩, ⟨"sha256:bbb", "mt", ⟨"arm64", "linux"⟩⟩]
      "mips" = Except.error "No image for arch: mips"
    ∧ ("No image for arch: mips" : String) ≠ "no image for arch: mips" := by
  refine ⟨rfl, ?_⟩
  decide

/-- Soundness of get_image_by_arch: absence of a match gives the error, and
an ok result is a matching member whose digest get_arch_image_digest
returns. -/
theorem get_image_by_arch_cases (manifests : List ManifestEntry) (arch : String) :
    ((∀ m ∈ manifests, m.platform.architecture ≠ arch) →
      get_image_by_arch manifests arch = Except.error ("No image for arch: " ++ arch))
    ∧ (∀ m, get_image_by_arch manifests arch = Except.ok m →
        m ∈ manifests ∧ m.platform.architecture = arch
        ∧ get_arch_image_digest manifests arch = Except.ok m.digest) := by
  induction manifests with
  | nil =>
    refine ⟨fun _ => rfl, ?_⟩
    intro m h
    simp [get_image_by_arch] at h
  | cons m0 rest ih =>
    constructor
    · intro hall
      have h0 : ¬ m0.platform.architecture = arch := hall m0 (List.mem_cons_self m0 rest)
      simp only [get_image_by_arch, if_neg h0]
      exact ih.1 (fun m hm => hall m (List.mem_cons_of_mem m0 hm))
    · intro m h
      by_cases h0 : m0.platform.architecture = arch
      · rw [get_image_by_arch, if_pos h0] at h
        obtain rfl : m0 = m := by injection h
        refine ⟨List.mem_cons_self m0 rest, h0, ?_⟩
        simp only [get_arch_image_digest, get_image_by_arch, if_pos h0]
        rfl
      · rw [get_image_by_arch, if_neg h0] at h
        obtain ⟨hmem, harch, hdig⟩ := ih.2 m h
        refine ⟨List.mem_cons_of_mem m0 hmem, harch, ?_⟩
        rw [get_arch_image_digest] at hdig ⊢
        rw [get_image_by_arch, if_neg h0]
        exact hdig

/-- Firstness of get_image_by_arch: when the list splits as
`pre ++ m :: post` with every entry of `pre` mismatching and `m` matching,
the scan returns exactly `m`. -/
theorem get_image_by_arch_first (pre : List ManifestEntry) (m : ManifestEntry)
    (post : List ManifestEntry) (arch : String)
    (hm : m.platform.architecture = arch)
    (hpre : ∀ m' ∈ pre, m'.platform.architecture ≠ arch) :
    get_image_by_arch (pre ++ m :: post) arch = Except.ok m := by
  induction pre with
  | nil => simp [get_image_by_arch, hm]
  | cons p ps ih =>
    have hp : ¬ p.platform.architecture = arch := hpre p (List.mem_cons_self p ps)
    simp only [List.cons_append, get_image_by_arch, if_neg hp]
    exact ih (fun m' hm' => hpre m' (List.mem_cons_of_mem p hm'))

/-- Completeness of get_image_by_arch: a present architecture always yields
an ok result. -/
theorem get_image_by_arch_exists (manifests : List ManifestEntry) (arch : String) :
    (∃ m ∈ manifests, m.platform.architecture = arch) →
    ∃ m, get_image_by_arch manifests arch = Except.ok m := by
  induction manifests with
  | nil => rintro ⟨m, hm, _⟩; simp at hm
  | cons m0 rest ih =>
    rintro ⟨m, hm, harch⟩
    by_cases h0 : m0.platform.architecture = arch
    · exact ⟨m0, by simp [get_image_by_arch, if_pos h0]⟩
    · have hmem : m ∈ rest := by
        rcases List.mem_cons.1 hm with rfl | hmem
        · exact absurd harch h0
        · exact hmem
      obtain ⟨m', hm'⟩ := ih ⟨m, hmem, harch⟩
      exact ⟨m', by rw [get_image_by_arch, if_neg h0]; exact hm'⟩

/-- C7 as amended: looking up an architecture absent from the cached
manifest list raises an error whose message is "No image for arch: <arch>"
(a pure scan of the cached list, hence no blob fetch); a present
architecture always yields an ok result, every ok result is a matching
member whose digest is returned, and when the list splits as pre ++ m ::
post with every entry of pre mismatching and m matching, the entry returned
is exactly m — the first match. -/
theorem claim_c7_arch_lookup (manifests : List ManifestEntry) (arch : String) :
    ((∀ m ∈ manifests, m.platform.architecture ≠ arch) →
      get_image_by_arch manifests arch = Except.error ("No image for arch: " ++ arch))
    ∧ (∀ m, get_image_by_arch manifests arch = Except.ok m →
        m ∈ manifests ∧ m.platform.architecture = arch
        ∧ get_arch_image_digest manifests arch = Except.ok m.digest)
    ∧ ((∃ m ∈ manifests, m.platform.architecture = arch) →
        ∃ m, get_image_by_arch manifests arch = Except.ok m)
    ∧ (∀ pre m post, manifests = pre ++ m :: post →
        m.platform.architecture = arch →
        (∀ m' ∈ pre, m'.platform.architecture ≠ arch) →
        get_image_by_arch manifests arch = Except.ok m
        ∧ get_arch_image_digest manifests arch = Except.ok m.digest) := by
  refine ⟨(get_image_by_arch_cases manifests arch).1,
    (get_image_by_arch_cases manifests arch).2,
    get_image_by_arch_exists manifests arch, ?_⟩
  rintro pre m post rfl hm hpre
  have hok := get_image_by_arch_first pre m post arch hm hpre
  exact ⟨hok, by rw [get_arch_image_digest, hok]; rfl⟩

/-- Data of a String append on the underlying char lists. -/
theorem string_data_append (s t : String) : (s ++ t).data = s.data ++ t.data := by
  cases s
  cases t
  rfl

/-- C8 counterexample: `requests`' `Response.ok` is `status_code < 400`, so
a 301 response — a non-2xx status — does not raise a ManifestError: the
fetch treats it as success and returns the body. -/
theorem claim_c8_counterexample :
    request_image_manifests ⟨301, "redirect body", ""⟩ = Except.ok "redirect body"
    ∧ ¬(200 ≤ 301 ∧ 301 < 300) := by
  refine ⟨rfl, ?_⟩
  decide

/-- C8 as amended: a 401 from the manifest endpoint raises an error whose
message contains the Www-Authenticate header content verbatim; any status
≥ 400 other than 401 raises an error carrying the status code and body; but
every status < 400 (including 3xx, which are not 2xx) is treated as success
and returns the body. -/
theorem claim_c8_manifest_errors (r : HttpResponse) :
    (r.status_code = 401 →
      ∃ msg, request_image_manifests r = Except.error msg
        ∧ hasSub r.wwwAuthenticate.data msg.data = true)
    ∧ (400 ≤ r.status_code → r.status_code ≠ 401 →
      request_image_manifests r =
        Except.error ("Failed to get manifests: " ++ toString r.status_code ++ ": " ++ r.text))
    ∧ (r.status_code < 400 → request_image_manifests r = Except.ok r.text) := by
  refine ⟨?_, ?_, ?_⟩
  · intro h401
    have hok : response_ok r = false := by
      simp [response_ok, h401]
    refine ⟨"Failed to get manifests: Required Token: " ++ r.wwwAuthenticate, ?_, ?_⟩
    · simp [request_image_manifests, hok, h401]
    · rw [string_data_append]
      exact (hasSub_iff r.wwwAuthenticate.data _).2
        ⟨("Failed to get manifests: Required Token: " : String).data, [], by simp⟩
  · intro hge h401
    have hok : response_ok r = false := by
      simp only [response_ok]
      simp
      omega
    simp [request_image_manifests, hok, h401]
  · intro hlt
    have hok : response_ok r = true := by
      simp only [response_ok]
      simpa using hlt
    simp [request_image_manifests, hok]

/-- C9: the compute-once-and-stash policy of load_and_cache: starting from
an object with no cached attribute, any number k+1 of consecutive accesses
invokes the generator exactly once (on the first access), leaves its value
cached, and every access returns that same first value — no invalidation
ever occurs. -/
theorem claim_c9_cache {α : Type} (generator : Nat → α) (k : Nat) :
    (iterate_access generator (k + 1)).1 = some (generator 0)
    ∧ (iterate_access generator (k + 1)).2.1 = 1
    ∧ (iterate_access generator (k + 1)).2.2 = List.replicate (k + 1) (generator 0) := by
  have hstep : ∀ j, iterate_access generator (j + 1) =
      ((load_and_cache (iterate_access generator j).1
          (iterate_access generator j).2.1 generator).2.1,
       (load_and_cache (iterate_access generator j).1
          (iterate_access generator j).2.1 generator).2.2,
       (iterate_access generator j).2.2 ++
         [(load_and_cache (iterate_access generator j).1
            (iterate_access generator j).2.1 generator).1]) := fun j => rfl
  induction k with
  | zero => exact ⟨rfl, rfl, rfl⟩
  | succ k ih =>
    obtain ⟨h1, h2, h3⟩ := ih
    rw [hstep (k + 1), h1, h2, h3]
    exact ⟨rfl, rfl, (List.replicate_succ' (k + 1) (generator 0)).symm⟩

/-! ### Split lemmas for image-name parsing -/

theorem splitOnChar_ne_nil (sep : Char) (s : List Char) : splitOnChar sep s ≠ [] := by
  induction s with
  | nil => simp [splitOnChar]
  | cons c cs ih =>
    by_cases h : c = sep
    · simp [splitOnChar, h]
    · cases hr : splitOnChar sep cs with
      | nil => exact absurd hr ih
      | cons r rs => simp [splitOnChar, h, hr]

theorem splitOnChar_not_mem (sep : Char) (s : List Char) (h : sep ∉ s) :
    splitOnChar sep s = [s] := by
  induction s with
  | nil => rfl
  | cons c cs ih =>
    have hc : ¬ c = sep := fun hc => h (hc ▸ List.mem_cons_self c cs)
    have hcs : sep ∉ cs := fun hm => h (List.mem_cons_of_mem c hm)
    simp [splitOnChar, hc, ih hcs]

theorem splitOnChar_append (sep : Char) (a b : List Char) (ha : sep ∉ a) :
    splitOnChar sep (a ++ sep :: b) = a :: splitOnChar sep b := by
  induction a with
  | nil => simp [splitOnChar]
  | cons c cs ih =>
    have hc : ¬ c = sep := fun hc => ha (hc ▸ List.mem_cons_self c cs)
    have hcs : sep ∉ cs := fun hm => ha (List.mem_cons_of_mem c hm)
    simp [splitOnChar, hc, ih hcs]

theorem length_splitOnChar (sep : Char) (s : List Char) :
    (splitOnChar sep s).length = s.count sep + 1 := by
  induction s with
  | nil => rfl
  | cons c cs ih =>
    by_cases h : c = sep
    · simp [splitOnChar, h, List.count_cons, ih]
    · cases hr : splitOnChar sep cs with
      | nil => exact absurd hr (splitOnChar_ne_nil sep cs)
      | cons r rs =>
        rw [hr] at ih
        simp only [List.length_cons] at ih
        simp [splitOnChar, h, hr, List.count_cons]
        omega

theorem mem_of_two_le_count {sep : Char} {s : List Char} (h : 2 ≤ s.count sep) :
    sep ∈ s := by
  by_contra hm
  rw [List.count_eq_zero.2 hm] at h
  omega

/-- C10 counterexample: "a:b/c:d" contains two ':' characters, yet
parse_image_name succeeds (returning repo "a:b", name "c", tag "d") instead
of failing: the first ':' is consumed by the repository part of the '/'
split, so only the remainder's colons are ever counted. -/
theorem claim_c10_counterexample :
    parse_image_name "a:b/c:d".data
      = Except.ok ("a:b".data, "c".data, "d".data)
    ∧ 2 ≤ "a:b/c:d".data.count ':' := by
  refine ⟨rfl, ?_⟩
  decide

/-- C10 as amended: parse_image_name is total exactly on inputs with at most
one '/' and at most one ':' in the segment after the '/' (the whole string
when there is no '/'); there it returns (repository, name, tag) with
repository defaulting to "library" and tag to "latest" — all four success
shapes (no '/' or one '/', crossed with no ':' or one ':' in that segment,
e.g. "library/ubuntu:latest") are covered, with no constraint on colons in
the repository part; two or more '/' characters, or two or more ':'
characters in the post-'/' segment, raise a ValueError. -/
theorem claim_c10_parse (s a b n t : List Char) :
    (('/' ∉ s ∧ ':' ∉ s) →
      parse_image_name s = Except.ok ("library".data, s, "latest".data))
    ∧ (('/' ∉ s ∧ s = n ++ ':' :: t ∧ ':' ∉ n ∧ ':' ∉ t) →
      parse_image_name s = Except.ok ("library".data, n, t))
    ∧ (('/' ∉ s ∧ 2 ≤ s.count ':') → ∃ e, parse_image_name s = Except.error e)
    ∧ ((s = a ++ '/' :: b ∧ '/' ∉ a ∧ '/' ∉ b ∧ ':' ∉ b) →
      parse_image_name s = Except.ok (a, b, "latest".data))
    ∧ ((s = a ++ '/' :: b ∧ '/' ∉ a ∧ '/' ∉ b ∧ 2 ≤ b.count ':') →
      ∃ e, parse_image_name s = Except.error e)
    ∧ (2 ≤ s.count '/' → ∃ e, parse_image_name s = Except.error e)
    ∧ ((s = a ++ '/' :: b ∧ '/' ∉ a ∧ '/' ∉ b ∧ b = n ++ ':' :: t ∧ ':' ∉ n ∧ ':' ∉ t) →
      parse_image_name s = Except.ok (a, n, t))
    ∧ parse_image_name "library/ubuntu:latest".data
        = Except.ok ("library".data, "ubuntu".data, "latest".data) := by
  refine ⟨?_, ?_, ?_, ?_, ?_, ?_, ?_, rfl⟩
  · rintro ⟨h1, h2⟩
    simp [parse_image_name, h1, h2]
  · rintro ⟨h1, rfl, h3, h4⟩
    have hmem : ':' ∈ n ++ ':' :: t :=
      List.mem_append.2 (Or.inr (List.mem_cons_self ':' t))
    simp [parse_image_name, h1, hmem, splitOnChar_append ':' n t h3,
      splitOnChar_not_mem ':' t h4]
  · rintro ⟨h1, h2⟩
    have hmem : ':' ∈ s := mem_of_two_le_count h2
    have hlen : (splitOnChar ':' s).length = s.count ':' + 1 := length_splitOnChar ':' s
    rcases hsp : splitOnChar ':' s with _ | ⟨x, _ | ⟨y, _ | ⟨z, w⟩⟩⟩
    · exact absurd hsp (splitOnChar_ne_nil ':' s)
    · rw [hsp] at hlen; simp at hlen; omega
    · rw [hsp] at hlen; simp at hlen; omega
    · exact ⟨"ValueError: too many values to unpack (expected 2)",
        by simp [parse_image_name, h1, hmem, hsp]⟩
  · rintro ⟨rfl, h2, h3, h4⟩
    have hmem : '/' ∈ a ++ '/' :: b :=
      List.mem_append.2 (Or.inr (List.mem_cons_self '/' b))
    simp [parse_image_name, hmem, splitOnChar_append '/' a b h2,
      splitOnChar_not_mem '/' b h3, h4]
  · rintro ⟨rfl, h2, h3, h4⟩
    have hmem : '/' ∈ a ++ '/' :: b :=
      List.mem_append.2 (Or.inr (List.mem_cons_self '/' b))
    have hmemb : ':' ∈ b := mem_of_two_le_count h4
    have hlen : (splitOnChar ':' b).length = b.count ':' + 1 := length_splitOnChar ':' b
    rcases hsp : splitOnChar ':' b with _ | ⟨x, _ | ⟨y, _ | ⟨z, w⟩⟩⟩
    · exact absurd hsp (splitOnChar_ne_nil ':' b)
    · rw [hsp] at hlen; simp at hlen; omega
    · rw [hsp] at hlen; simp at hlen; omega
    · exact ⟨"ValueError: too many values to unpack (expected 2)", by
        simp [parse_image_name, hmem, splitOnChar_append '/' a b h2,
          splitOnChar_not_mem '/' b h3, hmemb, hsp]⟩
  · intro h2
    have hmem : '/' ∈ s := mem_of_two_le_count h2
    have hlen : (splitOnChar '/' s).length = s.count '/' + 1 := length_splitOnChar '/' s
    rcases hsp : splitOnChar '/' s with _ | ⟨x, _ | ⟨y, _ | ⟨z, w⟩⟩⟩
    · exact absurd hsp (splitOnChar_ne_nil '/' s)
    · rw [hsp] at hlen; simp at hlen; omega
    · rw [hsp] at hlen; simp at hlen; omega
    · exact ⟨"ValueError: too many values to unpack (expected 2)",
        by simp [parse_image_name, hmem, hsp]⟩
  · rintro ⟨rfl, h2, h3, rfl, h5, h6⟩
    have hmem : '/' ∈ a ++ '/' :: (n ++ ':' :: t) :=
      List.mem_append.2 (Or.inr (List.mem_cons_self '/' (n ++ ':' :: t)))
    have hmemb : ':' ∈ n ++ ':' :: t :=
      List.mem_append.2 (Or.inr (List.mem_cons_self ':' t))
    simp [parse_image_name, hmem, splitOnChar_append '/' a (n ++ ':' :: t) h2,
      splitOnChar_not_mem '/' (n ++ ':' :: t) h3, hmemb,
      splitOnChar_append ':' n t h5, splitOnChar_not_mem ':' t h6]

end DockerClone
